import Mathlib

/-!
Verification development for `pdftranscript/transcript.py`
(semantic-HTML reconstruction from pdf2htmlEX output).

The Python source is shallowly embedded: pure fragments become Lean
functions over `List Char` / `String`, the mutable DOM passes become
explicit state-passing functions, Python exceptions (`IndexError` from
`classn`) become `Option`/`none`, Python `dict`/`OrderedDict` become
ordered association lists, and Python `sorted` becomes the stable
`List.mergeSort`.  Machine integers do not overflow in the source
(small pixel values), so coordinates are plain `Int`/`Nat`.
-/

namespace Transcript

/-! ## Python string primitives

`transcript.py` manipulates class-attribute strings with `str.split`,
`str.strip`, `' '.join`, substring `in`, and `str.isdigit`.  These are
modelled over `List Char`. -/

/-- Model of Python list/str prefix test (`s.startswith(p)` on char lists). -/
def isPref : List Char → List Char → Bool
  | [], _ => true
  | _ :: _, [] => false
  | a :: as, b :: bs => a == b && isPref as bs

/-- Model of Python substring membership `needle in hay`. -/
def isSub (needle : List Char) : List Char → Bool
  | [] => isPref needle []
  | c :: rest => isPref needle (c :: rest) || isSub needle rest

/-- Worker for `splitOnL`, structurally recursive on a fuel argument so
that the kernel can evaluate it; `fuel ≥ length of the input` always
holds at the call sites, making the `fuel = 0` branch unreachable. -/
def splitOnFuel (sep : List Char) : Nat → List Char → List (List Char)
  | _, [] => [[]]
  | 0, l => [l]
  | fuel + 1, c :: rest =>
    if sep ≠ [] ∧ isPref sep (c :: rest) then
      [] :: splitOnFuel sep fuel (List.drop (sep.length - 1) rest)
    else
      match splitOnFuel sep fuel rest with
      | h :: t => (c :: h) :: t
      | [] => [[c]]

/-- Model of Python `s.split(sep)` for a nonempty separator `sep`:
split at each non-overlapping occurrence of `sep`, scanning left to
right.  (`transcript.py` only ever calls `split` with a nonempty
separator, `' ' + class_`.) -/
def splitOnL (sep : List Char) (s : List Char) : List (List Char) :=
  splitOnFuel sep s.length s

/-- Model of Python `s.split()` (no argument): split on runs of
whitespace, discarding empty pieces.  `acc` holds the current word,
reversed. -/
def wsSplitAux : List Char → List Char → List (List Char)
  | [], acc => if acc.isEmpty then [] else [acc.reverse]
  | c :: rest, acc =>
    if c.isWhitespace then
      if acc.isEmpty then wsSplitAux rest [] else acc.reverse :: wsSplitAux rest []
    else wsSplitAux rest (c :: acc)

/-- Model of Python `s.split()` (split on whitespace, drop empties). -/
def wsSplit (s : List Char) : List (List Char) := wsSplitAux s []

/-- Model of Python `s.strip()`: drop leading and trailing whitespace. -/
def stripWs (s : List Char) : List Char :=
  ((s.dropWhile Char.isWhitespace).reverse.dropWhile Char.isWhitespace).reverse

/-- Model of Python `' '.join(words)` on char lists. -/
def joinSp (ws : List (List Char)) : List Char := List.intercalate [' '] ws

/-- String-level wrapper for `isSub`: Python `needle in hay`. -/
def strIn (needle hay : String) : Bool := isSub needle.toList hay.toList

/-- Python `''.join(a for a in s if not a.isdigit())`: strip all digit
characters (used on header texts to ignore page numbers). -/
def stripDigits (s : List Char) : List Char := s.filter (fun a => !a.isDigit)

/-! ## `classn` and `get_dimension`

```python
def classn(class_, el):
    return el.attrib['class'].split(' ' + class_)[1].split()[0]
```

The two Python subscripts can raise `IndexError` (when the class
attribute has no occurrence of `' ' + class_`, or nothing but
whitespace follows it); the model returns `none` in exactly those
cases. -/

/-- Model of `classn(class_, el)` applied to the element's class
attribute string; `none` models the `IndexError` raised when the
requested token is absent. -/
def classn (class_ : String) (klass : String) : Option String :=
  match splitOnL (' ' :: class_.toList) klass.toList with
  | _ :: p1 :: _ =>
    match wsSplit p1 with
    | w :: _ => some (String.mk w)
    | [] => none
  | _ => none

/-- A dimension table: for each category prefix (`'x'`, `'y'`, `'h'`,
`'fs'`, …) a partial map from hex class number to rounded pixel value,
as built by `css_sizes` from the stylesheet (out of scope, supplied as
data). -/
def Dims : Type := String → String → Option Int

/-- Model of the closure
```python
def get_dimension(el, dim_type):
    return dimensions[dim_type].get(classn(dim_type, el)) or 0
```
A missing *dimension entry* yields `0` (`dict.get` returns `None`,
`None or 0` is `0`; a stored `0` is also falsy and yields `0`).  A
missing *class token* propagates the `classn` `IndexError` (`none`). -/
def get_dimension (dims : Dims) (dimType : String) (klass : String) : Option Int :=
  (classn dimType klass).map (fun n => (dims dimType n).getD 0)

/-! ## `remove_headers`

```python
def remove_headers(dom):
    leading = []
    for n1 in dom.cssselect('.pc > *:first-child'):
        n1_y = classn('y', n1)
        topmost = parent(n1).cssselect('.y' + n1_y)
        header_txt = ' '.join([x.text_content() for x in topmost])
        header_txt = ''.join(a for a in header_txt if not a.isdigit()).strip()
        leading.append((topmost, header_txt))
    texts = [txt for topmost, txt in leading if txt]
    if len(texts) > 1 and all(x == texts[-1] for x in texts[1:]):
        for topmost, txt in leading:
            if texts[-1] in txt:
                for each in topmost:
                    remove(each)
    return dom
```

A page is modelled as the ordered list of its elements; an element
carries its class-attribute string and its `text_content()`.  A page
with no elements contributes nothing in the source (no `:first-child`);
the model gives it `topmost = []` and signature `""`, which is
behaviourally identical (an empty signature is filtered out of `texts`,
and a non-empty `texts[-1]` is never a substring of `""`, so such a
page is never touched).  `classn('y', n1)` raising `IndexError`
(first element with no `y` token) aborts the whole call: modelled by
`none`. -/

/-- One element on a page: its class attribute and text content. -/
structure HElem where
  klass : String
  text : String
deriving DecidableEq

/-- Model of CSS class selection `cssselect('.TOK')`: the element's
class attribute contains `TOK` as a whole (whitespace-separated)
token. -/
def hasClassToken (tok : String) (e : HElem) : Bool :=
  (wsSplit e.klass.toList).contains tok.toList

/-- The `(topmost, header_txt)` pair collected for one page: the
elements sharing the first element's `y` class, and their joined,
digit-stripped, whitespace-trimmed text.  `none` models the
`IndexError` from `classn('y', n1)`. -/
def pageLeading (p : List HElem) : Option (List HElem × String) :=
  match p with
  | [] => some ([], "")
  | e :: _ =>
    (classn "y" e.klass).map fun n1y =>
      let topmost := p.filter (hasClassToken ("y" ++ n1y))
      let headerTxt :=
        String.mk (stripWs (stripDigits (joinSp (topmost.map (fun x => x.text.toList)))))
      (topmost, headerTxt)

/-- `texts = [txt for topmost, txt in leading if txt]`: the non-empty
signatures, in page order. -/
def sigTexts (leading : List (List HElem × String)) : List String :=
  (leading.map Prod.snd).filter (fun t => !(t == ""))

/-- The repeated-header condition of the source: more than one
non-empty signature, and every signature after the first non-empty one
equals the last (`all(x == texts[-1] for x in texts[1:])`). -/
def headersRepeat (texts : List String) : Bool :=
  decide (texts.length > 1) && (texts.drop 1).all (fun x => x == texts.getLastD "")

/-- The removal loop body for one page: if `texts[-1] in txt`, remove
the page's topmost elements, otherwise leave the page alone.  The
argument pairs the page with its `(topmost, txt)` record. -/
def stripPage (common : String) (pl : List HElem × (List HElem × String)) : List HElem :=
  if strIn common pl.2.2 then pl.1.filter (fun e => !(pl.2.1.contains e)) else pl.1

/-- Model of `remove_headers`: `none` models the `IndexError` raised
when some page's first element has no `y` class token. -/
def remove_headers (pages : List (List HElem)) : Option (List (List HElem)) :=
  (pages.mapM pageLeading).map fun leading =>
    let texts := sigTexts leading
    if headersRepeat texts then
      (pages.zip leading).map (stripPage (texts.getLastD ""))
    else pages

/-! ## `grid_data` geometry resolution

```python
x = get_dimension(l, 'x')
y = get_dimension(l, 'y') + get_dimension(l, 'h')
if exists(cb):
    x = get_dimension(cb, 'x') + x
    y = get_dimension(cb, 'y')
paper_height = 850
y = paper_height - y
```
-/

/-- A `.t` line as seen by `grid_data`: its own class attribute and its
parent's class attribute (the parent is the clip box exactly when its
class attribute starts with `"c "`). -/
structure GLine where
  klass : String
  parentKlass : String
deriving DecidableEq

/-- Model of `if parent(l).attrib.get('class', '').startswith('c '):
cb = parent(l)`. -/
def cbOf (l : GLine) : Option String :=
  if isPref "c ".toList l.parentKlass.toList then some l.parentKlass else none

/-- Fixed page height in px (`paper_height = 850`). -/
def paperHeight : Int := 850

/-- Model of the coordinate computation of `grid_data` for one line:
the `(x, y)` stored in the line's record.  `none` models a `classn`
`IndexError` (missing class token); a present token whose dimension
entry is absent resolves to `0` inside `get_dimension`. -/
def gridXY (dims : Dims) (l : GLine) : Option (Int × Int) := do
  let x ← get_dimension dims "x" l.klass
  let y0 ← get_dimension dims "y" l.klass
  let h ← get_dimension dims "h" l.klass
  match cbOf l with
  | some cb => do
    let cbx ← get_dimension dims "x" cb
    let cby ← get_dimension dims "y" cb
    pure (cbx + x, paperHeight - cby)
  | none => pure (x, paperHeight - (y0 + h))

/-! ## `reconstruct_tables`

```python
def reconstruct_tables(dom, data):
    rows = collections.OrderedDict()
    cboxes = {}
    for c in sorted(data, key=lambda c: (c.page, c.y, c.x)):
        key = f'{c.page:d},{c.y:d}'
        rows.setdefault(key, []).append(c)
        cboxes.setdefault(c.clipbox, []).append(c.elem)

    merged = []
    for key, row in rows.items():
        for cell in row:
            if cell.clipbox in merged:
                rows[key] = [c for c in rows[key] if c != cell]
            else:
                cell.lines = cboxes[cell.clipbox]
                merged.append(cell.clipbox)

    for row in rows.values():
        if len([c for c in row if c.text]) > 1:
            tr = parent(row[0].elem)
            tr.tag = 'tr'
            for cell in row:
                cell.elem.tag = 'td'
                cell.elem.attrib['class'] = ''
                for line in cell.lines[1:]:
                    line.attrib['class'] = ''
                    if BR:
                        cell.elem.append(Element('br'))
                    cell.elem.append(line)
                tr.append(cell.elem)
    ...
    wrap_set(dom, 'tr', 'table')
```

A record of `data` (one `SimpleNamespace` per `.t` line) is modelled by
`Rec`; DOM element identity becomes a numeric `id`, the element's DOM
parent becomes `parentId` (the clip box is the parent exactly when one
exists, per `grid_data`).  The string row key `f'{page:d},{y:d}'` is
modelled by the pair `(page, y)` (the decimal rendering with a comma
separator is injective).  Python's stable `sorted` is modelled by
`List.insertionSort` (any stable sort is extensionally the same).
`cboxes` stores whole records where the source stores `c.elem`; only
identity (`id`) and `text` of those elements are consumed later.
The mutation `rows[key] = [c for c in rows[key] if c != cell]` rebinds
the dict entry while iteration continues over the originally bound
list, so each bucket is scanned in full in its original order: that is
exactly `scanCells`. -/

/-- One record of `data` as built by `grid_data`. -/
structure Rec where
  page : Int
  x : Int
  y : Int
  id : Nat
  parentId : Nat
  clipbox : Option Nat
  text : String
deriving DecidableEq

/-- The sort key order `(c.page, c.y, c.x)` of the source, as a total
preorder. -/
def recLe (c d : Rec) : Prop :=
  c.page < d.page ∨ (c.page = d.page ∧ (c.y < d.y ∨ (c.y = d.y ∧ c.x ≤ d.x)))

instance : DecidableRel recLe := fun c d => by unfold recLe; infer_instance

instance : IsTotal Rec recLe := by
  constructor; intro a b; unfold recLe; omega

instance : IsTrans Rec recLe := by
  constructor; intro a b c; unfold recLe; omega

/-- `sorted(data, key=lambda c: (c.page, c.y, c.x))`. -/
def sortRecs (data : List Rec) : List Rec := List.insertionSort recLe data

/-- The row key `f'{c.page:d},{c.y:d}'`. -/
def rowKey (c : Rec) : Int × Int := (c.page, c.y)

/-- Model of `dict.setdefault(k, []).append(v)` on an ordered
association list: append `v` to the bucket of `k`, creating the bucket
at the end when absent (insertion order preserved, as in
`OrderedDict` / Python 3.7+ `dict`). -/
def addTo {κ : Type} [DecidableEq κ] {α : Type} (k : κ) (v : α) :
    List (κ × List α) → List (κ × List α)
  | [] => [(k, [v])]
  | (k', b) :: rest =>
    if k' = k then (k', b ++ [v]) :: rest else (k', b) :: addTo k v rest

/-- Grouping loop `for c in l: groups.setdefault(f(c), []).append(c)`. -/
def groupPairs {κ : Type} [DecidableEq κ] {α : Type} (f : α → κ) (l : List α) :
    List (κ × List α) :=
  l.foldl (fun acc c => addTo (f c) c acc) []

/-- The inner merge loop over one row bucket, carrying the `merged`
list of already-seen clip-box keys: a cell whose key was seen is
removed from the bucket, otherwise it is kept and its key is
appended to `merged`. -/
def scanCells : List Rec → List (Option Nat) → List Rec × List (Option Nat)
  | [], m => ([], m)
  | c :: rest, m =>
    if c.clipbox ∈ m then scanCells rest m
    else
      let r := scanCells rest (m ++ [c.clipbox])
      (c :: r.1, r.2)

/-- The outer merge loop over all row buckets in insertion order,
threading `merged` through. -/
def mergeRows : List ((Int × Int) × List Rec) → List (Option Nat) →
    List ((Int × Int) × List Rec) × List (Option Nat)
  | [], m => ([], m)
  | (k, b) :: rest, m =>
    let s := scanCells b m
    let r := mergeRows rest s.2
    ((k, s.1) :: r.1, r.2)

/-- Association-list lookup (`dict.__getitem__` / `dict.get` on the
ordered association lists built by `addTo`). -/
def alookup {κ : Type} [DecidableEq κ] {α : Type} (k : κ) : List (κ × α) → Option α
  | [] => none
  | (k', v) :: rest => if k' = k then some v else alookup k rest

/-- `cboxes[c.clipbox]`: the full clip-box group of a record (in the
sorted order in which `cboxes` was built).  In the source this list is
assigned to `cell.lines` for exactly the kept (representative) cells,
which are the only ones later read. -/
def linesOf (sd : List Rec) (c : Rec) : List Rec :=
  (alookup c.clipbox (groupPairs (fun r => r.clipbox) sd)).getD []

/-- A `<td>` cell as produced by the emission loop: the representative
record whose element is re-tagged, and the extra internal lines
`cell.lines[1:]` appended into it. -/
structure Td where
  rep : Rec
  extras : List Rec
deriving DecidableEq

/-- A `<tr>` row as produced by the emission loop: the row key, the id
of the re-tagged container (`parent(row[0].elem)`), and the cells. -/
structure Tr where
  key : Int × Int
  container : Nat
  cells : List Td
deriving DecidableEq

/-- The emission loop of `reconstruct_tables`: a post-merge bucket is
re-tagged as a table row only when more than one of its members has
non-empty text. -/
def emitRows (sd : List Rec) (buckets : List ((Int × Int) × List Rec)) : List Tr :=
  buckets.filterMap fun kb =>
    match kb.2 with
    | [] => none
    | c0 :: _ =>
      if (kb.2.filter (fun c => !(c.text == ""))).length > 1 then
        some { key := kb.1, container := c0.parentId,
               cells := kb.2.map (fun c => { rep := c, extras := (linesOf sd c).drop 1 }) }
      else none

/-- The post-merge row buckets of `reconstruct_tables` for a given
`data` list. -/
def tableBuckets (data : List Rec) : List ((Int × Int) × List Rec) :=
  (mergeRows (groupPairs rowKey (sortRecs data)) []).1

/-- The table rows emitted by `reconstruct_tables` for a given `data`
list. -/
def reconstruct_tables (data : List Rec) : List Tr :=
  emitRows (sortRecs data) (tableBuckets data)

/-- A content piece of a reconstructed cell: a `<br/>` or a line's
text. -/
inductive Piece where
  | br : Piece
  | txt : String → Piece
deriving DecidableEq

/-- The rendered content of a cell (with `BR = 1`): the
representative's own text, then for each extra internal line a break
followed by that line's text. -/
def tdPieces (td : Td) : List Piece :=
  Piece.txt td.rep.text :: td.extras.flatMap (fun e => [Piece.br, Piece.txt e.text])

/-- The clip-box group of a record: every record of the sorted data
with the same `clipbox` value, in sorted order.  (`cboxes` maps each
clip-box key — including the absent-clip-box key `none` — to exactly
this list.) -/
def groupOf (sd : List Rec) (c : Rec) : List Rec :=
  sd.filter (fun d => decide (d.clipbox = c.clipbox))

/-- A record is the first of its clip-box group in the sorted data:
these are exactly the cells the merge pass keeps in their row
buckets. -/
def isFirstOfGroup (sd : List Rec) (c : Rec) : Bool :=
  decide (sd.find? (fun d => decide (d.clipbox = c.clipbox)) = some c)

/-- The row bucket of a key: all records of the sorted data whose
`(page, y)` equals the key, in sorted order. -/
def rowBucket (data : List Rec) (k : Int × Int) : List Rec :=
  (sortRecs data).filter (fun c => decide (rowKey c = k))

/-- The row bucket of a key after the merge pass: the members that
are first of their clip-box group. -/
def postBucket (data : List Rec) (k : Int × Int) : List Rec :=
  (rowBucket data k).filter (isFirstOfGroup (sortRecs data))

/-- The text carried by a content piece (`none` for a `<br/>`). -/
def pieceText : Piece → Option String
  | Piece.br => none
  | Piece.txt s => some s

/-- The emission condition `len([c for c in row if c.text]) > 1` on a
post-merge row bucket. -/
def qualifies (data : List Rec) (k : Int × Int) : Bool :=
  decide (((postBucket data k).filter (fun c => !(c.text == ""))).length > 1)

/-- The table row emitted for a qualifying bucket whose first member
is `c0`: the container is `parent(row[0].elem)` and each member
becomes a cell carrying its extra internal lines `cell.lines[1:]`. -/
def rowTr (data : List Rec) (c0 : Rec) (k : Int × Int) : Tr :=
  ⟨k, c0.parentId,
    (postBucket data k).map (fun c => ⟨c, (linesOf (sortRecs data) c).drop 1⟩)⟩

/-- Elements whose class attribute is cleared by the emission loop:
every cell element and every extra internal line moved into a cell. -/
def clearedIds (trs : List Tr) : List Nat :=
  trs.flatMap (fun tr => tr.cells.flatMap (fun td => td.rep.id :: td.extras.map (fun e => e.id)))

/-- Elements re-tagged `<td>` by the emission loop. -/
def tdIds (trs : List Tr) : List Nat :=
  trs.flatMap (fun tr => tr.cells.map (fun td => td.rep.id))

/-! ### `wrap_set`

```python
def wrap_set(dom, child_tag, parent_tag):
    nxt = 0
    for e in dom.cssselect(child_tag):
        if nxt != e:
            box = Element(parent_tag)
            insert_after(box, e)
        box.append(e)
        nxt = parent(e).getnext()
        if nxt is None:
            nxt = e.getnext()
```

Scanning elements of `child_tag` in document order, this appends each
element into the current container while it immediately follows the
container (`nxt`), and starts a new container otherwise: every maximal
run of adjacent `child_tag` siblings ends up wrapped in one fresh
`parent_tag` container.  Modelled here on a flat sibling list. -/

/-- Worker for `wrapSet`; `cur` is the current container's content,
reversed. -/
def wrapRunsAux {α : Type} (p : α → Bool) : List α → List α → List (List α)
  | [], cur => if cur.isEmpty then [] else [cur.reverse]
  | a :: rest, cur =>
    if p a then wrapRunsAux p rest (a :: cur)
    else if cur.isEmpty then wrapRunsAux p rest []
    else cur.reverse :: wrapRunsAux p rest []

/-- Model of `wrap_set` on a flat list of siblings: each maximal run of
elements satisfying `p` (having the child tag) becomes the content of
one new parent container. -/
def wrapSet {α : Type} (p : α → Bool) (l : List α) : List (List α) :=
  wrapRunsAux p l []

/-! ## `heading_levels`

```python
def heading_levels(dom, dimensions):
    fs_stats = [
        (len(dom.cssselect('.fs' + cssn)), cssn, fs) for cssn, fs in dimensions['fs'].items()
    ]
    top_stats = sorted(fs_stats, key=lambda x: x[0], reverse=True)
    prevalent_fs = top_stats[0][-1]
    headings = [x for x in reversed(fs_stats) if x[-1] > prevalent_fs]
    h_levels = {}
    level = 1
    for _count, cssn, _size in headings:
        h_levels[cssn] = level
        level += 1
    return h_levels
```

The element count per font-size class (`len(dom.cssselect(...))`) is
supplied as a function `counts`; `dimensions['fs']` is an ordered
association list of `(class number, pixel size)`.  `sorted(...,
reverse=True)` is a stable descending sort, modelled by
`List.insertionSort` with the `≥`-on-count preorder.  `top_stats[0]`
raises `IndexError` on an empty table: modelled by `none`. -/

/-- One `(count, cssn, fs)` triple of `fs_stats`. -/
structure FsStat where
  count : Nat
  cssn : String
  size : Int
deriving DecidableEq

/-- `fs_stats`. -/
def fsStats (counts : String → Nat) (fsDims : List (String × Int)) : List FsStat :=
  fsDims.map (fun p => ⟨counts p.1, p.1, p.2⟩)

/-- The descending-count order of `sorted(fs_stats, key=lambda x: x[0],
reverse=True)`. -/
def statGe (s t : FsStat) : Prop := t.count ≤ s.count

instance : DecidableRel statGe := fun s t => by unfold statGe; infer_instance

instance : IsTotal FsStat statGe := by
  constructor; intro a b; unfold statGe; omega

instance : IsTrans FsStat statGe := by
  constructor; intro a b c; unfold statGe; omega

/-- Model of `heading_levels`: `none` models the `IndexError` from
`top_stats[0]` when there are no font-size classes.  The result maps a
font-size class number to its heading level, in assignment order. -/
def heading_levels (counts : String → Nat) (fsDims : List (String × Int)) :
    Option (List (String × Nat)) :=
  let stats := fsStats counts fsDims
  match List.insertionSort statGe stats with
  | [] => none
  | t :: _ =>
    let prevalent := t.size
    let headings := stats.reverse.filter (fun s => decide (prevalent < s.size))
    some (headings.enum.map (fun p => (p.2.cssn, p.1 + 1)))

/-! ## The `semanticize` line loop (block reconstruction)

```python
p_look = p_height = p_space = p_tag = box = 0
for l in dom.cssselect('.t'):
    classes = l.attrib['class'].split()
    classes = [c for c in classes if c[0] != 'y' and c[0:2] != 'fc']
    look = ' '.join(classes)
    new_look = p_look != look
    height = get_dimension(l, 'h')
    line_height = p_height - height
    margin = line_height > MAX_LINE_HEIGHT
    space = not l.text_content().strip()
    append = (new_look == p_space == margin is False)
    txt = l.text_content()
    tag = 'p'
    indent = 'x0' not in look
    if [1 for b in BULLETS if txt.startswith(b)]:
        tag = 'li'; append = 0
    elif indent and p_tag == 'li':
        tag = 'li'; append = 1
    size = classn('fs', l)
    if size in h_levels.keys():
        append = 0; tag = f'h{h_levels[size]}'
    if txt.strip():
        if append:
            if BR: box.append(Element('br'))
            box.append(l)
        else:
            box = l; l.tag = tag
    else:
        remove(l)
    p_space, p_height, p_look, p_tag = space, height, look, tag
```

The initial Python `0` values compare unequal to every look string
(`0 != look` is always true) and unequal to `'li'`, and `0 == False`
in the chained comparison; they are modelled by `none` / `false` /
`0`.  The chained comparison `(new_look == p_space == margin is
False)` means `new_look == p_space and p_space == margin and margin is
False`, i.e. (on booleans) all three are false. -/

/-- `MAX_LINE_HEIGHT = 18`. -/
def MAX_LINE_HEIGHT : Int := 18

/-- `BULLETS = ('•', '○', '■')` (the defaults; no `config.py` is
present in the repository, so the `ImportError` branch leaves them
unchanged). -/
def BULLETS : List String := ["•", "○", "■"]

/-- One `.t` line as seen by the loop: class attribute and
`text_content()`. -/
structure TLine where
  klass : String
  txt : String
deriving DecidableEq

/-- The loop state carried between iterations
(`p_space, p_height, p_look, p_tag`). -/
structure LoopState where
  pSpace : Bool
  pHeight : Int
  pLook : Option String
  pTag : Option String
deriving DecidableEq

/-- The initial state `p_look = p_height = p_space = p_tag = 0`. -/
def initState : LoopState := ⟨false, 0, none, none⟩

/-- The line's style signature `look`: class tokens with the
vertical-position (`y…`) and font-color (`fc…`) tokens removed,
re-joined with single spaces. -/
def lookOf (l : TLine) : String :=
  String.mk (joinSp ((wsSplit l.klass.toList).filter
    (fun c => !(c.take 1 == ['y']) && !(c.take 2 == ['f', 'c']))))

/-- `new_look = p_look != look`. -/
def newLookOf (st : LoopState) (l : TLine) : Bool :=
  !(st.pLook == some (lookOf l))

/-- `margin = (p_height - height) > MAX_LINE_HEIGHT`. -/
def marginOf (st : LoopState) (height : Int) : Bool :=
  decide (st.pHeight - height > MAX_LINE_HEIGHT)

/-- `space = not l.text_content().strip()`. -/
def isBlank (l : TLine) : Bool := (stripWs l.txt.toList).isEmpty

/-- `[1 for b in BULLETS if txt.startswith(b)]` is non-empty. -/
def startsBullet (l : TLine) : Bool :=
  BULLETS.any (fun b => isPref b.toList l.txt.toList)

/-- `indent = 'x0' not in look`. -/
def indentOf (l : TLine) : Bool := !(strIn "x0" (lookOf l))

/-- What the loop body does with the line element. -/
inductive LineAct where
  | removed : LineAct
  | appended : LineAct
  | newBlock : String → LineAct
deriving DecidableEq

/-- One iteration of the `semanticize` line loop: returns the next
state and the action taken on the line.  `none` models the
`IndexError` raised by `classn` inside `get_dimension(l, 'h')` or
`classn('fs', l)` when the class token is absent. -/
def stepLine (dims : Dims) (hLevels : List (String × Nat)) (st : LoopState) (l : TLine) :
    Option (LoopState × LineAct) := do
  let look := lookOf l
  let newLook := newLookOf st l
  let height ← get_dimension dims "h" l.klass
  let margin := marginOf st height
  let space := isBlank l
  let append0 : Bool := (newLook == st.pSpace) && (st.pSpace == margin) && (margin == false)
  let ta1 : String × Bool :=
    if startsBullet l then ("li", false)
    else if indentOf l && (st.pTag == some "li") then ("li", true)
    else ("p", append0)
  let size ← classn "fs" l.klass
  let ta2 : String × Bool :=
    match hLevels.lookup size with
    | some lvl => ("h" ++ toString lvl, false)
    | none => ta1
  let act :=
    if space then LineAct.removed
    else if ta2.2 then LineAct.appended else LineAct.newBlock ta2.1
  pure (⟨space, height, some look, some ta2.1⟩, act)

/-! ## Concrete inputs used by witnesses and counterexamples -/

/-- Page 1 of the three-page header scenario. -/
def arPage1 : List HElem := [⟨"t y1", "Annual Report 2020"⟩]

/-- Page 2 of the three-page header scenario. -/
def arPage2 : List HElem := [⟨"t y1", "Annual Report 2021"⟩]

/-- Page 3 of the three-page header scenario. -/
def arPage3 : List HElem := [⟨"t y1", "Annual Report 2021"⟩]

/-- A page whose leading text is digits only (empty signature). -/
def hdrPage1 : List HElem := [⟨"t y1", "7"⟩]

/-- A page with leading text `Alpha`. -/
def hdrPage2 : List HElem := [⟨"t y1", "Alpha"⟩]

/-- A page with leading text `Beta`. -/
def hdrPage3 : List HElem := [⟨"t y1", "Beta"⟩]

/-- A small dimension table for the geometry examples. -/
def cdimsEx : Dims := fun d n =>
  if d = "x" ∧ n = "1" then some 5
  else if d = "y" ∧ n = "1" then some 20
  else if d = "h" ∧ n = "1" then some 10
  else if d = "x" ∧ n = "2" then some 7
  else if d = "y" ∧ n = "2" then some 100
  else none

/-- A line without a clip-box parent. -/
def glUnclipped : GLine := ⟨"t x1 y1 h1", "pc pc1 w0 h0"⟩

/-- A line whose parent is a clip box with left class `x2` and bottom
class `y2`. -/
def glClipped : GLine := ⟨"t x1 y1 h1", "c x2 y2"⟩

/-- A dimension table for the loop examples: height class `h1` is 10 px.
-/
def sdimsEx : Dims := fun d n => if d = "h" ∧ n = "1" then some 10 else none

/-- An ordinary text line. -/
def lineHello : TLine := ⟨"t x0 h1 y2 ff1 fs1", "Hello"⟩

/-- A second line with the same signature on another vertical position.
-/
def lineWorld : TLine := ⟨"t x0 h1 y3 ff1 fs1", "world"⟩

/-- A bulleted line with the same signature. -/
def lineBullet : TLine := ⟨"t x0 h1 y2 ff1 fs1", "• hi"⟩

/-- A whitespace-only line with a different signature. -/
def lineBlank : TLine := ⟨"t x3 h1 y9 fc2 fs1", "  "⟩

/-- A line with no `h` class token. -/
def lineNoH : TLine := ⟨"t x0 y2 fs1", "abc"⟩

/-- The state after processing `lineHello` as a paragraph. -/
def stHello : LoopState := ⟨false, 10, some "t x0 h1 ff1 fs1", some "p"⟩

/-- Per-class element counts for the heading example. -/
def hcountsEx : String → Nat :=
  fun n => if n = "0" then 50 else if n = "1" then 3 else if n = "2" then 7 else 0

/-- Font-size table for the heading example: class `0` is 12 px (body),
class `1` is 20 px, class `2` is 9 px. -/
def fsDimsEx : List (String × Int) := [("0", 12), ("1", 20), ("2", 9)]

/-- 2×2 grid, no clip boxes, cell A. -/
def gridA : Rec := ⟨1, 10, 100, 1, 50, none, "A"⟩

/-- 2×2 grid, no clip boxes, cell B. -/
def gridB : Rec := ⟨1, 200, 100, 2, 50, none, "B"⟩

/-- 2×2 grid, no clip boxes, cell C. -/
def gridC : Rec := ⟨1, 10, 300, 3, 50, none, "C"⟩

/-- 2×2 grid, no clip boxes, cell D. -/
def gridD : Rec := ⟨1, 200, 300, 4, 50, none, "D"⟩

/-- 2×2 grid with column-wise clip boxes, cell A (clip box 60). -/
def colA : Rec := ⟨1, 10, 100, 1, 60, some 60, "A"⟩

/-- 2×2 grid with column-wise clip boxes, cell B (clip box 61). -/
def colB : Rec := ⟨1, 200, 100, 2, 61, some 61, "B"⟩

/-- 2×2 grid with column-wise clip boxes, cell C (clip box 60). -/
def colC : Rec := ⟨1, 10, 300, 3, 60, some 60, "C"⟩

/-- 2×2 grid with column-wise clip boxes, cell D (clip box 61). -/
def colD : Rec := ⟨1, 200, 300, 4, 61, some 61, "D"⟩

/-- An unclipped line in row 1 (page child). -/
def unA : Rec := ⟨1, 10, 100, 1, 50, none, "A"⟩

/-- A clipped line in row 1 next to `unA`. -/
def unB : Rec := ⟨1, 200, 100, 2, 70, some 70, "B"⟩

/-- A second unclipped line, alone in row 2. -/
def unC : Rec := ⟨1, 10, 300, 3, 50, none, "C"⟩

/-! # Helper lemmas -/

/-- The default of `getLastD` is irrelevant on a nonempty list: the
result is a member. -/
theorem getLastD_mem_of_ne_nil {α : Type} [Inhabited α] (l : List α) (d : α) (h : l ≠ []) :
    l.getLastD d ∈ l := by
  rw [List.getLastD_eq_getLast?]
  cases hq : l.getLast? with
  | none => exact absurd (List.getLast?_eq_none_iff.mp hq) h
  | some a =>
    obtain ⟨hne, rfl⟩ := List.mem_getLast?_eq_getLast (by rw [hq]; exact rfl)
    simp [List.getLast_mem hne]

/-- A non-empty needle is not a substring of the empty string. -/
theorem strIn_empty_of_ne (s : String) (h : s.toList ≠ []) : strIn s "" = false := by
  have hz : ("" : String).toList = [] := rfl
  unfold strIn
  rw [hz]
  cases hs : s.toList with
  | nil => exact absurd hs h
  | cons c cs => simp [isSub, isPref, hs]

/-- The `semanticize` loop body on a plain line: not bulleted, font
size not mapped to a heading, not an indented list continuation, not
blank.  The action reduces to the three-condition default decision. -/
theorem stepLine_plain_eq (dims : Dims) (hl : List (String × Nat)) (st : LoopState)
    (l : TLine) (hv : Int) (sv : String)
    (hh : get_dimension dims "h" l.klass = some hv)
    (hs : classn "fs" l.klass = some sv)
    (hnb : startsBullet l = false)
    (hnh : hl.lookup sv = none)
    (hnli : ¬(indentOf l = true ∧ st.pTag = some "li"))
    (hblank : isBlank l = false) :
    stepLine dims hl st l =
      some (⟨false, hv, some (lookOf l), some "p"⟩,
        if newLookOf st l = false ∧ st.pSpace = false ∧ marginOf st hv = false
        then LineAct.appended else LineAct.newBlock "p") := by
  have hli : (indentOf l && (st.pTag == some "li")) = false := by
    cases hii : indentOf l <;> cases htt : st.pTag == some "li" <;> simp_all
  simp only [stepLine, hh, hs, hnb, hnh, hli, hblank]
  cases hn : newLookOf st l <;> cases hsp : st.pSpace <;> cases hm : marginOf st hv <;>
    simp [hn, hsp, hm, hblank, hnh]

/-- A string different from `""` has a non-empty character list. -/
theorem toList_ne_nil (s : String) (h : s ≠ "") : s.toList ≠ [] := by
  intro hnil
  apply h
  cases s with
  | mk data =>
    cases data with
    | nil => rfl
    | cons c cs => simp [String.toList] at hnil

/-- On a list of length at least two, `getLastD` agrees with the
`getLastD` of the tail, which is nonempty. -/
theorem getLastD_drop_one {l : List String} (h : 2 ≤ l.length) :
    l.getLastD "" = (l.drop 1).getLastD "" ∧ (l.drop 1) ≠ [] := by
  match l, h with
  | a :: b :: rest, _ =>
    refine ⟨?_, by simp⟩
    rw [List.getLastD_eq_getLast?, List.getLastD_eq_getLast?, List.getLast?_cons_cons]
    simp

/-- The head of the descending-count sort is a member with maximal
count. -/
theorem head_is_max (stats : List FsStat) (t : FsStat) (rest : List FsStat)
    (h : List.insertionSort statGe stats = t :: rest) :
    t ∈ stats ∧ ∀ s ∈ stats, s.count ≤ t.count := by
  have hp := List.perm_insertionSort statGe stats
  rw [h] at hp
  have hsorted := List.sorted_insertionSort statGe stats
  rw [h] at hsorted
  constructor
  · exact hp.subset (List.mem_cons_self t rest)
  · intro s hs
    rcases List.mem_cons.mp (hp.symm.subset hs) with rfl | hmem
    · exact le_refl _
    · exact List.rel_of_sorted_cons hsorted s hmem

/-- With an empty heading-level map the loop never opens a heading
block: every new block is a paragraph or a list item. -/
theorem stepLine_no_heading (dims : Dims) (st : LoopState) (l : TLine)
    (st2 : LoopState) (act : LineAct)
    (h : stepLine dims [] st l = some (st2, act))
    (tg : String) (ha : act = LineAct.newBlock tg) : tg = "p" ∨ tg = "li" := by
  subst ha
  cases hg : get_dimension dims "h" l.klass with
  | none => simp [stepLine, hg] at h
  | some hv =>
    cases hcs : classn "fs" l.klass with
    | none => simp [stepLine, hg, hcs] at h
    | some sv =>
      simp [stepLine, hg, hcs] at h
      obtain ⟨-, hact⟩ := h
      cases hbl : isBlank l with
      | true => simp [hbl] at hact
      | false =>
        simp only [hbl, Bool.false_eq_true, if_false] at hact
        cases hsb : startsBullet l with
        | true =>
          simp only [hsb, if_true, reduceIte] at hact
          simp at hact
          exact Or.inr hact.symm
        | false =>
          simp only [hsb, Bool.false_eq_true, if_false] at hact
          by_cases hind : indentOf l = true ∧ st.pTag = some "li"
          · simp only [if_pos hind] at hact
            simp at hact
          · simp only [if_neg hind] at hact
            cases hap : (newLookOf st l == st.pSpace && st.pSpace == marginOf st hv &&
                !marginOf st hv) with
            | true =>
              simp only [hap] at hact
              simp at hact
            | false =>
              simp only [hap] at hact
              simp at hact
              exact Or.inl hact.symm

/-! ## Table-reconstruction infrastructure lemmas -/

section GroupPairs
variable {κ α : Type} [DecidableEq κ]

theorem groupPairs_nil (f : α → κ) : groupPairs f [] = [] := rfl

theorem groupPairs_snoc (f : α → κ) (l : List α) (a : α) :
    groupPairs f (l ++ [a]) = addTo (f a) a (groupPairs f l) := by
  unfold groupPairs
  rw [List.foldl_append]
  rfl

theorem addTo_cons_eq (k : κ) (v : α) (b : List α) (A : List (κ × List α)) :
    addTo k v ((k, b) :: A) = (k, b ++ [v]) :: A := by
  simp [addTo]

theorem addTo_cons_ne (k k' : κ) (v : α) (b : List α) (A : List (κ × List α))
    (h : k' ≠ k) : addTo k v ((k', b) :: A) = (k', b) :: addTo k v A := by
  simp [addTo, h]

theorem groupPairs_cons (f : α → κ) (a : α) (l : List α) :
    groupPairs f (a :: l) =
      (f a, a :: l.filter (fun x => decide (f x = f a))) ::
        groupPairs f (l.filter (fun x => !decide (f x = f a))) := by
  induction l using List.reverseRecOn with
  | nil => rfl
  | append_singleton l b ih =>
    have h1 : a :: (l ++ [b]) = (a :: l) ++ [b] := rfl
    rw [h1, groupPairs_snoc, ih]
    by_cases hb : f b = f a
    · rw [hb, addTo_cons_eq]
      rw [List.filter_append, List.filter_append]
      simp [hb]
    · rw [addTo_cons_ne (f b) (f a) b _ _ (Ne.symm hb)]
      rw [List.filter_append, List.filter_append]
      simp only [List.filter_cons, List.filter_nil]
      rw [← groupPairs_snoc]
      simp [hb]

theorem groupPairs_rec (f : α → κ) (motive : List α → Prop)
    (hnil : motive [])
    (hcons : ∀ a l, motive (l.filter (fun x => !decide (f x = f a))) → motive (a :: l)) :
    ∀ l, motive l := by
  have hstep : ∀ n (l : List α), l.length ≤ n → motive l := by
    intro n
    induction n with
    | zero =>
      intro l hl
      rw [List.length_eq_zero.mp (Nat.le_zero.mp hl)]
      exact hnil
    | succ n ih =>
      intro l hl
      cases l with
      | nil => exact hnil
      | cons a t =>
        refine hcons a t (ih _ ?_)
        calc (t.filter (fun x => !decide (f x = f a))).length
            ≤ t.length := List.length_filter_le _ _
          _ ≤ n := by simpa using Nat.le_of_succ_le_succ hl
  intro l
  exact hstep l.length l le_rfl

theorem mem_keys_groupPairs (f : α → κ) (l : List α) (k : κ) :
    k ∈ (groupPairs f l).map Prod.fst ↔ ∃ x ∈ l, f x = k := by
  induction l using groupPairs_rec f with
  | hnil => simp [groupPairs_nil]
  | hcons a t ih =>
    rw [groupPairs_cons]
    simp only [List.map_cons, List.mem_cons]
    rw [ih]
    constructor
    · rintro (rfl | ⟨x, hx, rfl⟩)
      · exact ⟨a, Or.inl rfl, rfl⟩
      · exact ⟨x, Or.inr (List.mem_filter.mp hx).1, rfl⟩
    · rintro ⟨x, (rfl | hxt), rfl⟩
      · exact Or.inl rfl
      · by_cases hfa : f x = f a
        · exact Or.inl hfa
        · exact Or.inr ⟨x, List.mem_filter.mpr ⟨hxt, by simp [hfa]⟩, rfl⟩

theorem mem_groupPairs_eq_filter (f : α → κ) (l : List α) :
    ∀ kb ∈ groupPairs f l, kb.2 = l.filter (fun x => decide (f x = kb.1)) := by
  induction l using groupPairs_rec f with
  | hnil => simp [groupPairs_nil]
  | hcons a t ih =>
    intro kb hkb
    rw [groupPairs_cons] at hkb
    rcases List.mem_cons.mp hkb with rfl | htail
    · simp
    · have hkey : kb.1 ∈ (groupPairs f (t.filter (fun x => !decide (f x = f a)))).map
          Prod.fst := List.mem_map.mpr ⟨kb, htail, rfl⟩
      rw [mem_keys_groupPairs] at hkey
      obtain ⟨x, hx, hfx⟩ := hkey
      have hne : kb.1 ≠ f a := by
        rw [← hfx]
        have h2 := (List.mem_filter.mp hx).2
        simpa using h2
      rw [ih kb htail, List.filter_filter, List.filter_cons]
      simp only [decide_eq_true_eq]
      rw [if_neg (fun h => hne h.symm)]
      apply List.filter_congr
      intro y hy
      cases hcase : decide (f y = kb.1) with
      | true =>
        have hyg := of_decide_eq_true hcase
        have hya : f y ≠ f a := fun hc => hne (hyg.symm.trans hc)
        simp [hcase, hya]
      | false => simp [hcase]

theorem alookup_groupPairs (f : α → κ) (g : κ) (l : List α) :
    alookup g (groupPairs f l) =
      if (l.filter (fun x => decide (f x = g))).isEmpty then none
      else some (l.filter (fun x => decide (f x = g))) := by
  induction l using groupPairs_rec f with
  | hnil => simp [groupPairs_nil, alookup]
  | hcons a t ih =>
    rw [groupPairs_cons]
    unfold alookup
    by_cases hg : f a = g
    · rw [if_pos hg]
      have hfe : (a :: t).filter (fun x => decide (f x = g)) =
          a :: t.filter (fun x => decide (f x = f a)) := by
        rw [List.filter_cons]
        simp only [decide_eq_true_eq]
        rw [if_pos hg]
        subst hg
        rfl
      rw [hfe]
      simp
    · rw [if_neg hg, ih, List.filter_filter]
      have hfe : (a :: t).filter (fun x => decide (f x = g)) =
          t.filter (fun x => decide (f x = g) && !decide (f x = f a)) := by
        rw [List.filter_cons]
        simp only [decide_eq_true_eq]
        rw [if_neg hg]
        apply List.filter_congr
        intro y hy
        cases hcase : decide (f y = g) with
        | true =>
          have hyg := of_decide_eq_true hcase
          have hya : f y ≠ f a := fun hc => hg (hc.symm.trans hyg)
          simp [hcase, hya]
        | false => simp [hcase]
      rw [hfe]

end GroupPairs

theorem key_between {a d c : Rec} (h1 : recLe a d) (h2 : recLe d c)
    (h3 : rowKey a = rowKey c) : rowKey d = rowKey a := by
  unfold recLe at h1 h2
  unfold rowKey at h3 ⊢
  rw [Prod.mk.injEq] at h3 ⊢
  obtain ⟨hp, hy⟩ := h3
  constructor <;> omega

theorem filter_key_prefix (a : Rec) (rest : List Rec)
    (h : (a :: rest).Pairwise recLe) :
    rest.filter (fun x => decide (rowKey x = rowKey a)) ++
      rest.filter (fun x => !decide (rowKey x = rowKey a)) = rest := by
  induction rest with
  | nil => rfl
  | cons d rest' ih =>
    have had : recLe a d := (List.pairwise_cons.mp h).1 d (List.mem_cons_self d rest')
    have hrest : (d :: rest').Pairwise recLe := (List.pairwise_cons.mp h).2
    have hsub : (a :: rest').Pairwise recLe :=
      h.sublist (List.Sublist.cons₂ a (List.sublist_cons_self d rest'))
    by_cases hd : rowKey d = rowKey a
    · rw [List.filter_cons, List.filter_cons]
      simp only [hd, decide_eq_true_eq, if_pos trivial, reduceIte]
      simp only [decide_True, Bool.not_true, Bool.false_eq_true, if_false]
      rw [List.cons_append, ih hsub]
    · rw [List.filter_cons, List.filter_cons]
      have hpos : (decide (rowKey d = rowKey a)) = false := by simp [hd]
      rw [hpos]
      simp only [Bool.false_eq_true, if_false, Bool.not_false, if_true, reduceIte]
      have hnone : rest'.filter (fun x => decide (rowKey x = rowKey a)) = [] := by
        rw [List.filter_eq_nil_iff]
        intro c hc hkey
        have hdc : recLe d c := (List.pairwise_cons.mp hrest).1 c hc
        have hkc : rowKey c = rowKey a := of_decide_eq_true hkey
        exact hd (key_between had hdc hkc.symm)
      rw [hnone, List.nil_append]
      have hall : rest'.filter (fun x => !decide (rowKey x = rowKey a)) = rest' := by
        apply List.filter_eq_self.mpr
        intro c hc
        by_contra hcon
        have : rowKey c = rowKey a := by
          by_contra hne
          apply hcon
          simp [hne]
        have hdc : recLe d c := (List.pairwise_cons.mp hrest).1 c hc
        exact hd (key_between had hdc this.symm)
      rw [hall]


theorem flatten_groupPairs : ∀ (l : List Rec), l.Pairwise recLe →
    (groupPairs rowKey l).flatMap Prod.snd = l := by
  intro l
  induction l using groupPairs_rec rowKey with
  | hnil => intro _; rfl
  | hcons a t ih =>
    intro h
    rw [groupPairs_cons, List.flatMap_cons]
    have htp : t.Pairwise recLe := (List.pairwise_cons.mp h).2
    have hp : (t.filter (fun x => !decide (rowKey x = rowKey a))).Pairwise recLe :=
      List.Pairwise.sublist (List.filter_sublist _) htp
    rw [ih hp, List.cons_append, filter_key_prefix a t h]

theorem scanCells_merged_mem (l : List Rec) (x : Option Nat) :
    ∀ (m : List (Option Nat)), x ∈ (scanCells l m).2 ↔ x ∈ m ∨ x ∈ l.map Rec.clipbox := by
  induction l with
  | nil => intro m; simp [scanCells]
  | cons c rest ih =>
    intro m
    unfold scanCells
    by_cases hc : c.clipbox ∈ m
    · rw [if_pos hc, ih m]
      simp only [List.map_cons, List.mem_cons]
      constructor
      · rintro (hm | hl)
        · exact Or.inl hm
        · exact Or.inr (Or.inr hl)
      · rintro (hm | rfl | hl)
        · exact Or.inl hm
        · exact Or.inl hc
        · exact Or.inr hl
    · rw [if_neg hc]
      show x ∈ (scanCells rest (m ++ [c.clipbox])).2 ↔ _
      rw [ih (m ++ [c.clipbox])]
      simp only [List.mem_append, List.mem_singleton, List.map_cons, List.mem_cons]
      tauto

theorem scanCells_kept (l : List Rec) (hnd : l.Nodup) :
    ∀ (m : List (Option Nat)), (scanCells l m).1 = l.filter (fun c =>
      !decide (c.clipbox ∈ m) &&
      decide (l.find? (fun d => decide (d.clipbox = c.clipbox)) = some c)) := by
  induction l with
  | nil => intro m; simp [scanCells]
  | cons c rest ih =>
    intro m
    have hcrest : c ∉ rest := (List.nodup_cons.mp hnd).1
    have hndr : rest.Nodup := (List.nodup_cons.mp hnd).2
    unfold scanCells
    by_cases hc : c.clipbox ∈ m
    · rw [if_pos hc, ih hndr m, List.filter_cons]
      have hcf : (!decide (c.clipbox ∈ m) &&
          decide ((c :: rest).find? (fun d => decide (d.clipbox = c.clipbox)) = some c)) =
          false := by
        simp [hc]
      rw [hcf]
      simp only [Bool.false_eq_true, if_false]
      apply List.filter_congr
      intro d hd
      by_cases hdc : d.clipbox = c.clipbox
      · have hfind : (c :: rest).find? (fun e => decide (e.clipbox = d.clipbox)) = some c := by
          apply List.find?_cons_of_pos
          simp [hdc]
        rw [hfind]
        have hdm : decide (d.clipbox ∈ m) = true := by
          rw [hdc]
          simpa using hc
        have hne : some c ≠ some d := by
          intro hcd
          exact hcrest ((Option.some.injEq c d ▸ hcd) ▸ hd)
        simp [hdm, hdc, hc]
      · have hfind : (c :: rest).find? (fun e => decide (e.clipbox = d.clipbox)) =
            rest.find? (fun e => decide (e.clipbox = d.clipbox)) := by
          apply List.find?_cons_of_neg
          simp
          exact fun h => hdc h.symm
        rw [hfind]
    · rw [if_neg hc]
      show c :: (scanCells rest (m ++ [c.clipbox])).1 = _
      rw [ih hndr (m ++ [c.clipbox]), List.filter_cons]
      have hcf : (!decide (c.clipbox ∈ m) &&
          decide ((c :: rest).find? (fun d => decide (d.clipbox = c.clipbox)) = some c)) =
          true := by
        have hfind : (c :: rest).find? (fun d => decide (d.clipbox = c.clipbox)) = some c :=
          List.find?_cons_of_pos _ (by simp)
        simp [hc, hfind]
      rw [hcf]
      simp only [if_true, reduceIte]
      congr 1
      apply List.filter_congr
      intro d hd
      by_cases hdc : d.clipbox = c.clipbox
      · have hfind : (c :: rest).find? (fun e => decide (e.clipbox = d.clipbox)) = some c := by
          apply List.find?_cons_of_pos
          simp [hdc]
        rw [hfind]
        have hdm : d.clipbox ∈ m ++ [c.clipbox] := by
          rw [hdc]
          simp
        have hne : c ≠ d := fun hcd => hcrest (hcd ▸ hd)
        simp [hdm, hne]
      · have hfind : (c :: rest).find? (fun e => decide (e.clipbox = d.clipbox)) =
            rest.find? (fun e => decide (e.clipbox = d.clipbox)) := by
          apply List.find?_cons_of_neg
          simp
          exact fun h => hdc h.symm
        rw [hfind]
        have hdm : (d.clipbox ∈ m ++ [c.clipbox]) ↔ (d.clipbox ∈ m) := by
          simp [hdc]
        rw [decide_eq_decide.mpr hdm]

theorem mergeRows_buckets (bs : List ((Int × Int) × List Rec)) :
    ∀ (m : List (Option Nat)), (bs.flatMap Prod.snd).Nodup →
    (mergeRows bs m).1 = bs.map (fun kb => (kb.1, kb.2.filter (fun c =>
      !decide (c.clipbox ∈ m) &&
      decide ((bs.flatMap Prod.snd).find? (fun d => decide (d.clipbox = c.clipbox)) =
        some c)))) := by
  induction bs with
  | nil => intro m _; rfl
  | cons kb rest ih =>
    intro m hnd
    obtain ⟨k, b⟩ := kb
    rw [List.flatMap_cons] at hnd
    have hndb : b.Nodup := List.Nodup.of_append_left hnd
    have hndr : (rest.flatMap Prod.snd).Nodup := List.Nodup.of_append_right hnd
    have hdisj : b.Disjoint (rest.flatMap Prod.snd) := List.disjoint_of_nodup_append hnd
    show ((k, (scanCells b m).1) :: (mergeRows rest (scanCells b m).2).1) = _
    rw [List.map_cons, List.flatMap_cons]
    congr 1
    · -- head bucket
      rw [scanCells_kept b hndb m]
      congr 1
      apply List.filter_congr
      intro c hc
      have hself : (b.find? (fun d => decide (d.clipbox = c.clipbox))).isSome := by
        rw [List.find?_isSome]
        exact ⟨c, hc, by simp⟩
      obtain ⟨x, hx⟩ := Option.isSome_iff_exists.mp hself
      rw [List.find?_append, hx, Option.or_some]
    · -- tail buckets
      rw [ih (scanCells b m).2 hndr]
      apply List.map_congr_left
      intro kb2 hkb2
      congr 1
      apply List.filter_congr
      intro c hc
      have hcr : c ∈ rest.flatMap Prod.snd := List.mem_flatMap.mpr ⟨kb2, hkb2, hc⟩
      have hmem : c.clipbox ∈ (scanCells b m).2 ↔
          c.clipbox ∈ m ∨ c.clipbox ∈ b.map Rec.clipbox :=
        scanCells_merged_mem b c.clipbox m
      cases hfb : b.find? (fun d => decide (d.clipbox = c.clipbox)) with
      | some x =>
        have hxb : x ∈ b := List.mem_of_find?_eq_some hfb
        have hxc : x.clipbox = c.clipbox := by
          have hp := List.find?_some hfb
          exact of_decide_eq_true hp
        have hcb : c.clipbox ∈ b.map Rec.clipbox := List.mem_map.mpr ⟨x, hxb, hxc⟩
        have hin : c.clipbox ∈ (scanCells b m).2 := hmem.mpr (Or.inr hcb)
        have hxc2 : x ≠ c := fun hxeq => hdisj (hxeq ▸ hxb) hcr
        have hffull : (b ++ rest.flatMap Prod.snd).find?
            (fun d => decide (d.clipbox = c.clipbox)) = some x := by
          rw [List.find?_append, hfb]
          rfl
        rw [hffull]
        simp [hin, hxc2]
      | none =>
        have hncb : c.clipbox ∉ b.map Rec.clipbox := by
          intro hcon
          obtain ⟨x, hxb, hxc⟩ := List.mem_map.mp hcon
          have := List.find?_eq_none.mp hfb x hxb
          simp [hxc] at this
        have hiff : c.clipbox ∈ (scanCells b m).2 ↔ c.clipbox ∈ m := by
          rw [hmem]
          simp [hncb]
        have hffull : (b ++ rest.flatMap Prod.snd).find?
            (fun d => decide (d.clipbox = c.clipbox)) =
            (rest.flatMap Prod.snd).find? (fun d => decide (d.clipbox = c.clipbox)) := by
          rw [List.find?_append, hfb, Option.none_or]
        rw [hffull, decide_eq_decide.mpr hiff]

theorem sortRecs_pairwise (data : List Rec) : (sortRecs data).Pairwise recLe :=
  List.sorted_insertionSort recLe data

theorem flatten_rows_eq (data : List Rec) :
    (groupPairs rowKey (sortRecs data)).flatMap Prod.snd = sortRecs data :=
  flatten_groupPairs (sortRecs data) (sortRecs_pairwise data)

theorem tableBuckets_eq (data : List Rec) (hnd : (sortRecs data).Nodup) :
    tableBuckets data = (groupPairs rowKey (sortRecs data)).map
      (fun kb => (kb.1, kb.2.filter (isFirstOfGroup (sortRecs data)))) := by
  unfold tableBuckets
  have hflat := flatten_rows_eq data
  rw [mergeRows_buckets _ [] (by rw [hflat]; exact hnd)]
  apply List.map_congr_left
  intro kb hkb
  congr 1
  apply List.filter_congr
  intro c hc
  rw [hflat]
  simp [isFirstOfGroup]

theorem bucket_eq_rowBucket (data : List Rec) (kb : (Int × Int) × List Rec)
    (hkb : kb ∈ groupPairs rowKey (sortRecs data)) :
    kb.2 = rowBucket data kb.1 :=
  mem_groupPairs_eq_filter rowKey (sortRecs data) kb hkb

theorem mem_reconstruct_tables (data : List Rec) (hnd : (sortRecs data).Nodup) (tr : Tr) :
    tr ∈ reconstruct_tables data ↔
      ∃ k c0 rest, postBucket data k = c0 :: rest ∧ qualifies data k = true ∧
        tr = rowTr data c0 k := by
  unfold reconstruct_tables emitRows
  rw [tableBuckets_eq data hnd, List.filterMap_map, List.mem_filterMap]
  constructor
  · rintro ⟨kb, hkb, hf⟩
    have hb2 : kb.2.filter (isFirstOfGroup (sortRecs data)) = postBucket data kb.1 := by
      rw [bucket_eq_rowBucket data kb hkb]
      rfl
    simp only [Function.comp] at hf
    rw [hb2] at hf
    cases hpb : postBucket data kb.1 with
    | nil => rw [hpb] at hf; exact absurd hf (by simp)
    | cons c0 rest =>
      rw [hpb] at hf
      dsimp only at hf
      by_cases hq : ((c0 :: rest).filter (fun c => !(c.text == ""))).length > 1
      · rw [if_pos hq] at hf
        refine ⟨kb.1, c0, rest, hpb, ?_, ?_⟩
        · unfold qualifies
          rw [hpb]
          exact decide_eq_true hq
        · rw [← Option.some_inj]
          rw [← hf]
          unfold rowTr
          rw [hpb]
      · rw [if_neg hq] at hf
        exact absurd hf (by simp)
  · rintro ⟨k, c0, rest, hpb, hq, rfl⟩
    have hc0 : c0 ∈ rowBucket data k := by
      have : c0 ∈ postBucket data k := by rw [hpb]; exact List.mem_cons_self c0 rest
      exact List.mem_of_mem_filter this
    have hkmem : k ∈ (groupPairs rowKey (sortRecs data)).map Prod.fst := by
      rw [mem_keys_groupPairs]
      refine ⟨c0, List.mem_of_mem_filter hc0, ?_⟩
      have := (List.mem_filter.mp hc0).2
      exact of_decide_eq_true this
    obtain ⟨kb, hkb, hkfst⟩ := List.mem_map.mp hkmem
    refine ⟨kb, hkb, ?_⟩
    simp only [Function.comp]
    have hb2 : kb.2.filter (isFirstOfGroup (sortRecs data)) = postBucket data k := by
      rw [bucket_eq_rowBucket data kb hkb, hkfst]
      rfl
    rw [hb2, hpb]
    dsimp only
    unfold qualifies at hq
    rw [hpb] at hq
    rw [if_pos (of_decide_eq_true hq)]
    unfold rowTr
    rw [hpb, hkfst]

/-! # Claim theorems -/

/-- C6 (amended): geometry resolution yields, for every line whose
class tokens resolve, `x = left` and `y = 850 - (bottom + height)`
when unclipped; for a clipped line `x = clip.left + left` and
`y = 850 - clip.bottom` (the clip box's bottom value replaces the whole
`bottom + height` sum, so the line's height no longer contributes);
a class token whose dimension entry is absent resolves to 0. -/
theorem C6_geometry (dims : Dims) (l : GLine) (xv y0v hv : Int)
    (hx : get_dimension dims "x" l.klass = some xv)
    (hy : get_dimension dims "y" l.klass = some y0v)
    (hh : get_dimension dims "h" l.klass = some hv) :
    (cbOf l = none → gridXY dims l = some (xv, paperHeight - (y0v + hv))) ∧
    (∀ cb cbx cby, cbOf l = some cb →
      get_dimension dims "x" cb = some cbx → get_dimension dims "y" cb = some cby →
      gridXY dims l = some (cbx + xv, paperHeight - cby)) ∧
    (∀ d k tok, classn d k = some tok → dims d tok = none →
      get_dimension dims d k = some 0) := by
  refine ⟨?_, ?_, ?_⟩
  · intro hcb
    simp [gridXY, hx, hy, hh, hcb]
  · intro cb cbx cby hcb hcbx hcby
    simp [gridXY, hx, hy, hh, hcb, hcbx, hcby]
  · intro d k tok htok hmiss
    simp [get_dimension, htok, hmiss]

/-- Witness for C6: the clipped example line resolves to
`(7 + 5, 850 - 100)`. -/
theorem C6_geometry_witness :
    gridXY cdimsEx glClipped = some (7 + 5, paperHeight - 100) :=
  (C6_geometry cdimsEx glClipped 5 20 10 (by decide) (by decide) (by decide)).2.1
    "c x2 y2" 7 100 (by decide) (by decide) (by decide)

/-- Counterexample for C6 as stated: for a clipped line with height
10 px and clip-box bottom 100 px the code yields `y = 750`, not the
claimed `850 - (bottom + height) = 740` with the clip box's bottom
substituted. -/
theorem C6_counterexample :
    gridXY cdimsEx glClipped = some (12, 750) ∧
    (750 : Int) ≠ paperHeight - (100 + 10) := by
  exact ⟨by decide, by decide⟩

/-- C9 (amended): the loop body never fails when the `h` and `fs`
class tokens are present — a missing dimension entry for a present
token resolves to height 0 and processing continues; but (see the
counterexample) a line lacking a referenced class token aborts with a
lookup error. -/
theorem C9_missing_data (dims : Dims) (hl : List (String × Nat)) (st : LoopState)
    (l : TLine) (hv sv : String)
    (hh : classn "h" l.klass = some hv) (hs : classn "fs" l.klass = some sv) :
    (stepLine dims hl st l).isSome = true ∧
    (dims "h" hv = none → get_dimension dims "h" l.klass = some 0) := by
  constructor
  · simp [stepLine, get_dimension, hh, hs]
  · intro hmiss
    simp [get_dimension, hh, hmiss]

/-- Witness for C9: a line with `h` and `fs` tokens but no dimension
entry for its height class is processed without error, at height 0. -/
theorem C9_missing_data_witness :
    (stepLine sdimsEx [] initState ⟨"t x0 h7 y2 ff1 fs1", "abc"⟩).isSome = true ∧
    (sdimsEx "h" "7" = none →
      get_dimension sdimsEx "h" (TLine.mk "t x0 h7 y2 ff1 fs1" "abc").klass = some 0) :=
  C9_missing_data sdimsEx [] initState ⟨"t x0 h7 y2 ff1 fs1", "abc"⟩ "7" "1"
    (by decide) (by decide)

/-- Counterexample for C9 as stated: a line whose class attribute
lacks the `h` token makes the loop body reach the error state
(`classn` raises `IndexError`), so the pass does not "raise no
exception on any input line". -/
theorem C9_counterexample :
    stepLine sdimsEx [] initState lineNoH = none ∧
    classn "h" lineNoH.klass = none := by
  exact ⟨by decide, by decide⟩

/-- C10: when the loop deletes a blank (whitespace-only) line, the
state carried to the next iteration is taken from the deleted blank
line itself: `p_look` is the blank line's signature, `p_height` its
resolved height, `p_tag` its computed tag, and the next line's
`new_look` and `margin` compare against those values. -/
theorem C10_blank_state (dims : Dims) (hl : List (String × Nat)) (st : LoopState)
    (l : TLine) (st' : LoopState) (act : LineAct)
    (h : stepLine dims hl st l = some (st', act))
    (hb : isBlank l = true) :
    ∃ hv tagv, get_dimension dims "h" l.klass = some hv ∧
      st' = ⟨true, hv, some (lookOf l), some tagv⟩ ∧ act = LineAct.removed ∧
      (∀ l2, newLookOf st' l2 = !(lookOf l == lookOf l2)) ∧
      (∀ h2, marginOf st' h2 = decide (hv - h2 > MAX_LINE_HEIGHT)) := by
  cases hg : get_dimension dims "h" l.klass with
  | none => simp [stepLine, hg] at h
  | some hv =>
    cases hcs : classn "fs" l.klass with
    | none => simp [stepLine, hg, hcs] at h
    | some sv =>
      simp [stepLine, hg, hcs, hb] at h
      obtain ⟨hst, hact⟩ := h
      subst hact
      refine ⟨hv, _, rfl, hst.symm, rfl, ?_, ?_⟩
      · intro l2
        rw [← hst]
        simp [newLookOf]
      · intro h2
        rw [← hst]
        simp [marginOf]

/-- Witness for C10: the concrete blank line `lineBlank` is removed
and hands its own look, height and tag to the next iteration. -/
theorem C10_blank_state_witness :
    ∃ hv tagv, get_dimension sdimsEx "h" lineBlank.klass = some hv ∧
      (⟨true, 10, some "t x3 h1 fs1", some "p"⟩ : LoopState) =
        ⟨true, hv, some (lookOf lineBlank), some tagv⟩ ∧
      LineAct.removed = LineAct.removed ∧
      (∀ l2, newLookOf ⟨true, 10, some "t x3 h1 fs1", some "p"⟩ l2 =
        !(lookOf lineBlank == lookOf l2)) ∧
      (∀ h2, marginOf ⟨true, 10, some "t x3 h1 fs1", some "p"⟩ h2 =
        decide (hv - h2 > MAX_LINE_HEIGHT)) :=
  C10_blank_state sdimsEx [] stHello lineBlank
    ⟨true, 10, some "t x3 h1 fs1", some "p"⟩ LineAct.removed (by decide) (by decide)

theorem find?_eq_head?_filter {α : Type} (p : α → Bool) (l : List α) :
    List.find? p l = (l.filter p).head? := by
  induction l with
  | nil => rfl
  | cons a t ih =>
    rw [List.filter_cons]
    cases hp : p a with
    | true =>
      rw [List.find?_cons_of_pos _ hp]
      simp
    | false =>
      rw [List.find?_cons_of_neg _ (by simp [hp])]
      simp only [Bool.false_eq_true, if_false]
      exact ih

theorem mem_groupOf_iff (sd : List Rec) (c d : Rec) :
    d ∈ groupOf sd c ↔ d ∈ sd ∧ d.clipbox = c.clipbox := by
  unfold groupOf
  rw [List.mem_filter]
  simp

theorem groupOf_head (sd : List Rec) (c : Rec)
    (hrep : isFirstOfGroup sd c = true) :
    (groupOf sd c).head? = some c := by
  unfold isFirstOfGroup at hrep
  have h := of_decide_eq_true hrep
  rw [find?_eq_head?_filter] at h
  exact h

theorem linesOf_eq_groupOf (sd : List Rec) (c : Rec) (hc : c ∈ sd) :
    linesOf sd c = groupOf sd c := by
  unfold linesOf
  rw [alookup_groupPairs]
  have hne : ¬((sd.filter (fun x => decide (x.clipbox = c.clipbox))).isEmpty = true) := by
    rw [List.isEmpty_iff]
    intro hnil
    have : c ∈ sd.filter (fun x => decide (x.clipbox = c.clipbox)) :=
      List.mem_filter.mpr ⟨hc, by simp⟩
    rw [hnil] at this
    exact absurd this (List.not_mem_nil c)
  rw [if_neg hne]
  rfl

theorem rep_unique (sd : List Rec) (c d : Rec)
    (hc : isFirstOfGroup sd c = true) (hd : isFirstOfGroup sd d = true)
    (hcb : d.clipbox = c.clipbox) : d = c := by
  unfold isFirstOfGroup at hc hd
  have h1 := of_decide_eq_true hc
  have h2 := of_decide_eq_true hd
  rw [show (fun e : Rec => decide (e.clipbox = d.clipbox)) =
    (fun e : Rec => decide (e.clipbox = c.clipbox)) from by funext e; rw [hcb]] at h2
  rw [h1] at h2
  exact (Option.some.injEq _ _ ▸ h2).symm

theorem mem_postBucket_iff (data : List Rec) (k : Int × Int) (c : Rec) :
    c ∈ postBucket data k ↔
      c ∈ sortRecs data ∧ rowKey c = k ∧ isFirstOfGroup (sortRecs data) c = true := by
  unfold postBucket rowBucket
  rw [List.mem_filter, List.mem_filter]
  simp only [decide_eq_true_eq]
  tauto

theorem emitted_cells (data : List Rec) (hnd : (sortRecs data).Nodup)
    (tr : Tr) (htr : tr ∈ reconstruct_tables data) (td : Td) (htd : td ∈ tr.cells) :
    td.rep ∈ postBucket data tr.key ∧
    td.extras = (linesOf (sortRecs data) td.rep).drop 1 ∧
    qualifies data tr.key = true := by
  obtain ⟨k, c0, rest, hpb, hq, rfl⟩ := (mem_reconstruct_tables data hnd tr).mp htr
  unfold rowTr at htd ⊢
  simp only at htd ⊢
  obtain ⟨c, hcmem, rfl⟩ := List.mem_map.mp htd
  exact ⟨hcmem, rfl, hq⟩

/-- C7 (amended): a geometric row bucket with at most one
non-empty-text member is never emitted as a table row, and none of its
members is ever re-tagged as a `<td>` cell.  (A member may still have
its markup changed by being absorbed as an extra internal line into
another row's merged cell, and the bucket's parent may be re-tagged by
a different, qualifying row — see the counterexample.) -/
theorem C7_row_minimality (data : List Rec)
    (hnd : ((sortRecs data).map Rec.id).Nodup)
    (k : Int × Int)
    (hle : ((rowBucket data k).filter (fun c => !(c.text == ""))).length ≤ 1) :
    (∀ tr ∈ reconstruct_tables data, tr.key ≠ k) ∧
    (∀ c ∈ rowBucket data k, c.id ∉ tdIds (reconstruct_tables data)) := by
  have hndr : (sortRecs data).Nodup := List.Nodup.of_map _ hnd
  have hkey : ∀ tr ∈ reconstruct_tables data, tr.key ≠ k := by
    intro tr htr hkeq
    obtain ⟨k', c0, rest, hpb, hq, rfl⟩ := (mem_reconstruct_tables data hndr tr).mp htr
    have hk' : k' = k := hkeq
    subst hk'
    unfold qualifies at hq
    have hq' := of_decide_eq_true hq
    have hsub : ((postBucket data k').filter (fun c => !(c.text == ""))).Sublist
        ((rowBucket data k').filter (fun c => !(c.text == ""))) :=
      List.Sublist.filter _ (List.filter_sublist _)
    have hlen := hsub.length_le
    omega
  refine ⟨hkey, ?_⟩
  intro c hc hin
  unfold tdIds at hin
  obtain ⟨tr, htr, hid⟩ := List.mem_flatMap.mp hin
  obtain ⟨td, htd, hide⟩ := List.mem_map.mp hid
  obtain ⟨hrep, -, -⟩ := emitted_cells data hndr tr htr td htd
  have hrepsd : td.rep ∈ sortRecs data := ((mem_postBucket_iff data tr.key td.rep).mp hrep).1
  have hcsd : c ∈ sortRecs data := List.mem_of_mem_filter hc
  have hrc : td.rep = c := List.inj_on_of_nodup_map hnd hrepsd hcsd hide
  have hkc : rowKey c = k := by
    have := (List.mem_filter.mp hc).2
    exact of_decide_eq_true this
  have hkr : rowKey td.rep = tr.key := ((mem_postBucket_iff data tr.key td.rep).mp hrep).2.1
  exact hkey tr htr (by rw [← hkr, hrc, hkc])

theorem pieces_texts (ex : List Rec) :
    (ex.flatMap (fun e => [Piece.br, Piece.txt e.text])).filterMap pieceText =
      ex.map Rec.text := by
  induction ex with
  | nil => rfl
  | cons e t ih =>
    rw [List.flatMap_cons, List.filterMap_append, ih]
    rfl

theorem pieces_brcount (ex : List Rec) :
    (ex.flatMap (fun e => [Piece.br, Piece.txt e.text])).count Piece.br = ex.length := by
  induction ex with
  | nil => rfl
  | cons e t ih =>
    rw [List.flatMap_cons, List.count_append, ih]
    simp [List.count_cons, Nat.add_comm]

theorem tdPieces_texts (td : Td) :
    (tdPieces td).filterMap pieceText = td.rep.text :: td.extras.map Rec.text := by
  unfold tdPieces
  rw [List.filterMap_cons]
  simp only [pieceText]
  rw [pieces_texts]

theorem tdPieces_brcount (td : Td) :
    (tdPieces td).count Piece.br = td.extras.length := by
  unfold tdPieces
  rw [List.count_cons, pieces_brcount]
  simp

/-- C1 (amended): grouping is by clip-box *key*, where all lines
without a clip box share the single absent key: for every group the
first record in sorted (page, top-to-bottom, left-to-right) order is
the representative kept in its row bucket, every other member is
removed from all row buckets, and the representative's `lines` is the
whole group in sorted order.  If the representative's row qualifies,
exactly one cell is emitted for the group — the representative's, with
all k member texts in sorted order and exactly k−1 line breaks; if it
does not qualify, no cell of the group is emitted.  Every merged cell
mixes only lines of one clip-box key, but that key may be the absent
one, so unclipped lines do get merged together (see the
counterexample). -/
theorem C1_clipbox_merge (data : List Rec)
    (hnd : ((sortRecs data).map Rec.id).Nodup) :
    (sortRecs data).Pairwise recLe ∧
    (∀ tr ∈ reconstruct_tables data, ∀ td ∈ tr.cells, ∀ e ∈ td.extras,
      e.clipbox = td.rep.clipbox) ∧
    (∀ c ∈ sortRecs data, isFirstOfGroup (sortRecs data) c = true →
      c ∈ postBucket data (rowKey c) ∧
      (∀ d ∈ groupOf (sortRecs data) c, d ≠ c → ∀ k, d ∉ postBucket data k) ∧
      linesOf (sortRecs data) c = groupOf (sortRecs data) c ∧
      (qualifies data (rowKey c) = true →
        ∃ tr ∈ reconstruct_tables data, ∃ td ∈ tr.cells, td.rep = c ∧
          td.extras = (groupOf (sortRecs data) c).drop 1 ∧
          (tdPieces td).filterMap pieceText = (groupOf (sortRecs data) c).map Rec.text ∧
          (tdPieces td).count Piece.br = (groupOf (sortRecs data) c).length - 1) ∧
      (∀ tr ∈ reconstruct_tables data, ∀ td ∈ tr.cells,
        (td.rep ∈ groupOf (sortRecs data) c ∨
          ∃ e ∈ td.extras, e ∈ groupOf (sortRecs data) c) →
        td.rep = c) ∧
      (qualifies data (rowKey c) = false →
        ∀ tr ∈ reconstruct_tables data, ∀ td ∈ tr.cells,
          td.rep ∉ groupOf (sortRecs data) c ∧
          ∀ e ∈ td.extras, e ∉ groupOf (sortRecs data) c)) := by
  have hndr : (sortRecs data).Nodup := List.Nodup.of_map _ hnd
  have hshare : ∀ tr ∈ reconstruct_tables data, ∀ td ∈ tr.cells, ∀ e ∈ td.extras,
      e.clipbox = td.rep.clipbox := by
    intro tr htr td htd e he
    obtain ⟨hrep, hex, -⟩ := emitted_cells data hndr tr htr td htd
    have hrsd : td.rep ∈ sortRecs data := ((mem_postBucket_iff data tr.key td.rep).mp hrep).1
    rw [hex, linesOf_eq_groupOf _ _ hrsd] at he
    have he2 : e ∈ groupOf (sortRecs data) td.rep := List.mem_of_mem_drop he
    exact ((mem_groupOf_iff _ _ _).mp he2).2
  have huniq : ∀ c ∈ sortRecs data, isFirstOfGroup (sortRecs data) c = true →
      ∀ tr ∈ reconstruct_tables data, ∀ td ∈ tr.cells,
      (td.rep ∈ groupOf (sortRecs data) c ∨
        ∃ e ∈ td.extras, e ∈ groupOf (sortRecs data) c) →
      td.rep = c := by
    intro c hc hrep tr htr td htd hcase
    obtain ⟨hpb, hex, -⟩ := emitted_cells data hndr tr htr td htd
    have hrfirst : isFirstOfGroup (sortRecs data) td.rep = true :=
      ((mem_postBucket_iff data tr.key td.rep).mp hpb).2.2
    rcases hcase with hmem | ⟨e, he, hemem⟩
    · exact rep_unique _ _ _ hrep hrfirst ((mem_groupOf_iff _ _ _).mp hmem).2
    · have hecb : e.clipbox = td.rep.clipbox := hshare tr htr td htd e he
      have hecc : e.clipbox = c.clipbox := ((mem_groupOf_iff _ _ _).mp hemem).2
      exact rep_unique _ _ _ hrep hrfirst (hecb ▸ hecc)
  refine ⟨sortRecs_pairwise data, hshare, ?_⟩
  intro c hc hrep
  have hinpb : c ∈ postBucket data (rowKey c) :=
    (mem_postBucket_iff data (rowKey c) c).mpr ⟨hc, rfl, hrep⟩
  have hlg : linesOf (sortRecs data) c = groupOf (sortRecs data) c :=
    linesOf_eq_groupOf _ _ hc
  refine ⟨hinpb, ?_, hlg, ?_, huniq c hc hrep, ?_⟩
  · intro d hd hdc k hdpb
    have hdfirst : isFirstOfGroup (sortRecs data) d = true :=
      ((mem_postBucket_iff data k d).mp hdpb).2.2
    exact hdc (rep_unique _ _ _ hrep hdfirst ((mem_groupOf_iff _ _ _).mp hd).2)
  · intro hq
    cases hpb : postBucket data (rowKey c) with
    | nil => rw [hpb] at hinpb; exact absurd hinpb (List.not_mem_nil c)
    | cons c0 rest =>
      have htr : rowTr data c0 (rowKey c) ∈ reconstruct_tables data :=
        (mem_reconstruct_tables data hndr _).mpr ⟨rowKey c, c0, rest, hpb, hq, rfl⟩
      have hcells : (⟨c, (linesOf (sortRecs data) c).drop 1⟩ : Td) ∈
          (rowTr data c0 (rowKey c)).cells := by
        unfold rowTr
        exact List.mem_map.mpr ⟨c, hinpb, rfl⟩
      have hghead : (groupOf (sortRecs data) c).head? = some c := groupOf_head _ _ hrep
      cases hgo : groupOf (sortRecs data) c with
      | nil => rw [hgo] at hghead; exact absurd hghead (by simp)
      | cons g0 gt =>
        rw [hgo] at hghead
        have hg0 : g0 = c := by
          simpa using hghead
        rw [hg0] at hgo
        refine ⟨rowTr data c0 (rowKey c), htr, ⟨c, (linesOf (sortRecs data) c).drop 1⟩,
          hcells, rfl, ?_, ?_, ?_⟩
        · show (linesOf (sortRecs data) c).drop 1 = List.drop 1 (g0 :: gt)
          rw [hlg, hgo, hg0]
        · rw [tdPieces_texts, hg0]
          simp only [hlg, hgo]
          simp
        · rw [tdPieces_brcount, hg0]
          simp only [hlg, hgo]
          simp
  · intro hqf tr htr td htd
    constructor
    · intro hmem
      have hrc : td.rep = c := huniq c hc hrep tr htr td htd (Or.inl hmem)
      obtain ⟨hpb2, -, hq2⟩ := emitted_cells data hndr tr htr td htd
      have hkey : rowKey td.rep = tr.key := ((mem_postBucket_iff _ _ _).mp hpb2).2.1
      rw [hrc] at hkey
      rw [← hkey] at hq2
      rw [hq2] at hqf
      exact absurd hqf (by simp)
    · intro e he hemem
      have hrc : td.rep = c := huniq c hc hrep tr htr td htd (Or.inr ⟨e, he, hemem⟩)
      obtain ⟨hpb2, -, hq2⟩ := emitted_cells data hndr tr htr td htd
      have hkey : rowKey td.rep = tr.key := ((mem_postBucket_iff _ _ _).mp hpb2).2.1
      rw [hrc] at hkey
      rw [← hkey] at hq2
      rw [hq2] at hqf
      exact absurd hqf (by simp)

/-- C2 (amended): for a non-blank line that does not start with a
bullet, whose font-size class is not mapped to a heading level, and
that is not an indented line following a list item, `append` is true
iff `new_look`, previous-line-blank and `margin` are all false; and
for two adjacent such lines the second merges into the first's block
iff their signatures are identical and the height delta is at most
the 18 px threshold (violating either condition, or the blankness of
the first line, splits them). -/
theorem C2_append_decision (dims : Dims) (hl : List (String × Nat)) (st : LoopState)
    (l : TLine) (hv : Int) (sv : String)
    (hh : get_dimension dims "h" l.klass = some hv)
    (hs : classn "fs" l.klass = some sv)
    (hnb : startsBullet l = false)
    (hnh : hl.lookup sv = none)
    (hnli : ¬(indentOf l = true ∧ st.pTag = some "li"))
    (hblank : isBlank l = false) :
    stepLine dims hl st l =
      some (⟨false, hv, some (lookOf l), some "p"⟩,
        if newLookOf st l = false ∧ st.pSpace = false ∧ marginOf st hv = false
        then LineAct.appended else LineAct.newBlock "p") ∧
    (∀ (l2 : TLine) (hv2 : Int) (sv2 : String),
      get_dimension dims "h" l2.klass = some hv2 →
      classn "fs" l2.klass = some sv2 →
      startsBullet l2 = false → hl.lookup sv2 = none → isBlank l2 = false →
      (stepLine dims hl ⟨false, hv, some (lookOf l), some "p"⟩ l2 =
          some (⟨false, hv2, some (lookOf l2), some "p"⟩, LineAct.appended)
        ↔ (lookOf l2 = lookOf l ∧ hv - hv2 ≤ MAX_LINE_HEIGHT))) := by
  constructor
  · exact stepLine_plain_eq dims hl st l hv sv hh hs hnb hnh hnli hblank
  · intro l2 hv2 sv2 hh2 hs2 hnb2 hnh2 hbl2
    have hnli2 : ¬(indentOf l2 = true ∧
        (LoopState.mk false hv (some (lookOf l)) (some "p")).pTag = some "li") := by
      rintro ⟨-, htag⟩
      simp at htag
    have heq := stepLine_plain_eq dims hl ⟨false, hv, some (lookOf l), some "p"⟩ l2 hv2 sv2
      hh2 hs2 hnb2 hnh2 hnli2 hbl2
    rw [heq]
    have hnl : newLookOf ⟨false, hv, some (lookOf l), some "p"⟩ l2 = false ↔
        lookOf l2 = lookOf l := by
      unfold newLookOf
      simp only [Bool.not_eq_false', beq_iff_eq, Option.some.injEq]
      exact eq_comm
    have hmg : marginOf ⟨false, hv, some (lookOf l), some "p"⟩ hv2 = false ↔
        hv - hv2 ≤ MAX_LINE_HEIGHT := by
      simp [marginOf]
    constructor
    · intro happ
      by_cases hcond : newLookOf ⟨false, hv, some (lookOf l), some "p"⟩ l2 = false ∧
          (LoopState.mk false hv (some (lookOf l)) (some "p")).pSpace = false ∧
          marginOf ⟨false, hv, some (lookOf l), some "p"⟩ hv2 = false
      · exact ⟨hnl.mp hcond.1, hmg.mp hcond.2.2⟩
      · rw [if_neg hcond] at happ
        simp at happ
    · rintro ⟨hlook, hdelta⟩
      rw [if_pos ⟨hnl.mpr hlook, rfl, hmg.mpr hdelta⟩]

/-- Witness for C2: the concrete line `lineWorld` after `lineHello`
(same signature, height delta 0) evaluates the default decision. -/
theorem C2_append_decision_witness :
    stepLine sdimsEx [] stHello lineWorld =
      some (⟨false, 10, some (lookOf lineWorld), some "p"⟩,
        if newLookOf stHello lineWorld = false ∧ stHello.pSpace = false ∧
            marginOf stHello 10 = false
        then LineAct.appended else LineAct.newBlock "p") :=
  (C2_append_decision sdimsEx [] stHello lineWorld 10 "1" (by decide) (by decide)
    (by decide) (by decide) (by decide) (by decide)).1

/-- Counterexample for C2 as stated: a bulleted line with all three
continuation conditions false is still not appended (the bullet
override forces a new `li` block), so `append` is not equivalent to
the three conditions alone. -/
theorem C2_counterexample :
    newLookOf stHello lineBullet = false ∧ stHello.pSpace = false ∧
    marginOf stHello 10 = false ∧
    get_dimension sdimsEx "h" lineBullet.klass = some 10 ∧
    stepLine sdimsEx [] stHello lineBullet =
      some (⟨false, 10, some "t x0 h1 ff1 fs1", some "li"⟩, LineAct.newBlock "li") := by
  exact ⟨by decide, by decide, by decide, by decide, by decide⟩

/-- C4 (amended): in the three-page "Annual Report" scenario the
digit-stripped signatures of all three pages coincide ("Annual
Report"), so header removal strips the leading line from all three
pages — page 1 included, contrary to the claim. -/
theorem C4_annual_report :
    pageLeading arPage1 = some (arPage1, "Annual Report") ∧
    pageLeading arPage2 = some (arPage2, "Annual Report") ∧
    pageLeading arPage3 = some (arPage3, "Annual Report") ∧
    remove_headers [arPage1, arPage2, arPage3] = some [[], [], []] := by
  exact ⟨by decide, by decide, by decide, by decide⟩

/-- Counterexample for C4 as stated: page 1's leading line is not
retained — the whole page is emptied like pages 2 and 3. -/
theorem C4_counterexample :
    remove_headers [arPage1, arPage2, arPage3] = some [[], [], []] ∧
    arPage1 ≠ [] := by
  exact ⟨by decide, by decide⟩

/-- C3 (amended): header removal fires exactly when at least two pages
produce a non-empty digit-stripped leading-text signature and all
non-empty signatures after the first non-empty one (not necessarily
"from the second page onward") agree; then each page whose leading
text contains that common signature as a substring — page 1 included —
has its topmost elements removed, and pages with an empty signature
are always left untouched. -/
theorem C3_header_removal (pages : List (List HElem))
    (leading : List (List HElem × String))
    (hld : pages.mapM pageLeading = some leading) :
    (headersRepeat (sigTexts leading) = true ↔
      2 ≤ (sigTexts leading).length ∧
      ∀ s ∈ (sigTexts leading).drop 1, ∀ t ∈ (sigTexts leading).drop 1, s = t) ∧
    (headersRepeat (sigTexts leading) = true →
      remove_headers pages =
        some ((pages.zip leading).map (stripPage ((sigTexts leading).getLastD "")))) ∧
    (headersRepeat (sigTexts leading) = true →
      (sigTexts leading).getLastD "" ≠ "" ∧
      ∀ pl ∈ pages.zip leading, pl.2.2 = "" →
        stripPage ((sigTexts leading).getLastD "") pl = pl.1) ∧
    (headersRepeat (sigTexts leading) = false → remove_headers pages = some pages) := by
  refine ⟨?_, ?_, ?_, ?_⟩
  · unfold headersRepeat
    simp only [Bool.and_eq_true, decide_eq_true_eq, List.all_eq_true, beq_iff_eq]
    constructor
    · rintro ⟨hlen, hall⟩
      exact ⟨hlen, fun s hs t ht => (hall s hs).trans (hall t ht).symm⟩
    · rintro ⟨hlen, hpair⟩
      refine ⟨hlen, fun x hx => ?_⟩
      obtain ⟨hlast, hne⟩ := getLastD_drop_one hlen
      rw [hlast]
      exact hpair x hx _ (getLastD_mem_of_ne_nil _ _ hne)
  · intro hfire
    unfold remove_headers
    rw [hld, Option.map_some']
    simp only [hfire, if_true]
  · intro hfire
    have hlen : 2 ≤ (sigTexts leading).length := by
      unfold headersRepeat at hfire
      simp only [Bool.and_eq_true, decide_eq_true_eq] at hfire
      omega
    have hne : sigTexts leading ≠ [] := by
      intro hnil
      rw [hnil] at hlen
      simp at hlen
    have hmem := getLastD_mem_of_ne_nil (sigTexts leading) "" hne
    have hcom : (sigTexts leading).getLastD "" ≠ "" := by
      unfold sigTexts at hmem
      have h2 := (List.mem_filter.mp hmem).2
      simp only [Bool.not_eq_true', beq_eq_false_iff_ne, ne_eq] at h2
      exact h2
    refine ⟨hcom, fun pl _ hempty => ?_⟩
    unfold stripPage
    rw [hempty, strIn_empty_of_ne _ (toList_ne_nil _ hcom)]
    simp
  · intro hnofire
    unfold remove_headers
    rw [hld, Option.map_some']
    simp only [hnofire, Bool.false_eq_true, if_false]

/-- Witness for C3: on the concrete three pages whose signatures are
`"", "Alpha", "Beta"` the condition fires (the first non-empty
signature `"Alpha"` is exempt) and exactly page 3 is stripped. -/
theorem C3_header_removal_witness :
    remove_headers [hdrPage1, hdrPage2, hdrPage3] = some [hdrPage1, hdrPage2, []] := by
  have h := C3_header_removal [hdrPage1, hdrPage2, hdrPage3]
    [(hdrPage1, ""), (hdrPage2, "Alpha"), (hdrPage3, "Beta")] (by decide)
  rw [h.2.1 (by decide)]
  decide

/-- C5: the heading-level map assigns a level only to font-size
classes whose resolved pixel size strictly exceeds the prevalent
class's size, where the prevalent class is a class of maximal element
count; qualifying classes get levels 1, 2, 3, … in the reversed
enumeration order of the font-size table; when no class exceeds the
prevalent size the map is empty, and with an empty map the loop never
opens a heading block. -/
theorem C5_heading_levels (counts : String → Nat) (fsDims : List (String × Int))
    (hlv : List (String × Nat))
    (h : heading_levels counts fsDims = some hlv) :
    ∃ prev ∈ fsStats counts fsDims,
      (∀ s ∈ fsStats counts fsDims, s.count ≤ prev.count) ∧
      hlv.map Prod.fst =
        ((fsStats counts fsDims).reverse.filter
          (fun s => decide (prev.size < s.size))).map FsStat.cssn ∧
      hlv.map Prod.snd = List.range' 1 hlv.length ∧
      (∀ cssn lvl, (cssn, lvl) ∈ hlv → ∃ s ∈ fsStats counts fsDims,
        s.cssn = cssn ∧ prev.size < s.size) ∧
      ((∀ s ∈ fsStats counts fsDims, ¬ prev.size < s.size) → hlv = []) ∧
      (hlv = [] → ∀ dims st l st2 act, stepLine dims hlv st l = some (st2, act) →
        ∀ tg, act = LineAct.newBlock tg → tg = "p" ∨ tg = "li") := by
  cases hsort : List.insertionSort statGe (fsStats counts fsDims) with
  | nil =>
    simp only [heading_levels, hsort] at h
    exact absurd h (by simp)
  | cons t rest =>
    simp only [heading_levels, hsort, Option.some.injEq] at h
    obtain ⟨hmemt, hmax⟩ := head_is_max _ t rest hsort
    refine ⟨t, hmemt, hmax, ?_, ?_, ?_, ?_, ?_⟩
    · rw [← h, List.map_map]
      have hfun : (Prod.fst ∘ fun p : Nat × FsStat => (p.2.cssn, p.1 + 1)) =
          FsStat.cssn ∘ Prod.snd := rfl
      rw [hfun, ← List.map_map, List.enum_map_snd]
    · rw [← h, List.map_map]
      have h1 : (Prod.snd ∘ fun p : Nat × FsStat => (p.2.cssn, p.1 + 1)) =
          (fun i => i + 1) ∘ Prod.fst := rfl
      rw [h1, ← List.map_map, List.enum_map_fst, List.length_map, List.enum_length,
        List.range'_eq_map_range]
      simp [Nat.add_comm]
    · intro cssn lvl hmem
      have hfst : cssn ∈ hlv.map Prod.fst := List.mem_map.mpr ⟨(cssn, lvl), hmem, rfl⟩
      rw [← h, List.map_map] at hfst
      obtain ⟨p, hp, hpe⟩ := List.mem_map.mp hfst
      have hsnd : p.2 ∈ (fsStats counts fsDims).reverse.filter
          (fun s => decide (t.size < s.size)) := by
        have hx : p.2 ∈ ((fsStats counts fsDims).reverse.filter
            (fun s => decide (t.size < s.size))).enum.map Prod.snd :=
          List.mem_map.mpr ⟨p, hp, rfl⟩
        rw [List.enum_map_snd] at hx
        exact hx
      obtain ⟨hin, hgt⟩ := List.mem_filter.mp hsnd
      exact ⟨p.2, List.mem_reverse.mp hin, hpe, by simpa using hgt⟩
    · intro hnone
      have hfil : (fsStats counts fsDims).reverse.filter
          (fun s => decide (t.size < s.size)) = [] := by
        rw [List.filter_eq_nil_iff]
        intro a ha
        simpa using hnone a (List.mem_reverse.mp ha)
      rw [← h, hfil]
      rfl
    · intro hnil dims st l st2 act hstep tg ha
      rw [hnil] at hstep
      exact stepLine_no_heading dims st l st2 act hstep tg ha

/-- Witness for C5: on the concrete font-size table the map is
`[("1", 1)]` — class `1` (20 px) is the only one above the prevalent
size (12 px, count 50), at level 1. -/
theorem C5_heading_levels_witness :
    ∃ prev ∈ fsStats hcountsEx fsDimsEx,
      (∀ s ∈ fsStats hcountsEx fsDimsEx, s.count ≤ prev.count) ∧
      [("1", (1 : Nat))].map Prod.fst =
        ((fsStats hcountsEx fsDimsEx).reverse.filter
          (fun s => decide (prev.size < s.size))).map FsStat.cssn := by
  obtain ⟨prev, hmem, hmax, hfst, -⟩ :=
    C5_heading_levels hcountsEx fsDimsEx [("1", 1)] (by decide)
  exact ⟨prev, hmem, hmax, hfst⟩

/-- Counterexample for C3 as stated: pages 2 and 3 have differing
non-empty signatures (`"Alpha"` vs `"Beta"`), yet the code still
removes page 3's topmost elements, because only signatures after the
first non-empty one — not after page 1 — must agree. -/
theorem C3_counterexample :
    pageLeading hdrPage1 = some (hdrPage1, "") ∧
    pageLeading hdrPage2 = some (hdrPage2, "Alpha") ∧
    pageLeading hdrPage3 = some (hdrPage3, "Beta") ∧
    remove_headers [hdrPage1, hdrPage2, hdrPage3] ≠
      some [hdrPage1, hdrPage2, hdrPage3] := by
  exact ⟨by decide, by decide, by decide, by decide⟩

/-- Witness for C1: in the concrete three-record scenario, `unA`
(first of the absent-clip-box group) is kept in its bucket and its
`lines` is its whole group. -/
theorem C1_clipbox_merge_witness :
    unA ∈ postBucket [unA, unB, unC] (rowKey unA) ∧
    linesOf (sortRecs [unA, unB, unC]) unA = groupOf (sortRecs [unA, unB, unC]) unA := by
  obtain ⟨-, -, h3⟩ := C1_clipbox_merge [unA, unB, unC] (by decide)
  obtain ⟨ha, -, hloc, -⟩ := h3 unA (by decide) (by decide)
  exact ⟨ha, hloc⟩

/-- Counterexample for C1 as stated: `unA` and `unC` are on different
rows and have no clip box at all, yet the code renders them in one
cell (text "A", a break, text "C"), because `cboxes` groups every
unclipped line under the shared key `None`. -/
theorem C1_counterexample :
    unA.clipbox = none ∧ unC.clipbox = none ∧ rowKey unC ≠ rowKey unA ∧
    reconstruct_tables [unA, unB, unC] =
      [⟨(1, 100), 50, [⟨unA, [unC]⟩, ⟨unB, []⟩]⟩] ∧
    tdPieces ⟨unA, [unC]⟩ = [Piece.txt "A", Piece.br, Piece.txt "C"] := by
  exact ⟨by decide, by decide, by decide, by decide, by decide⟩

/-- Witness for C7: in the concrete scenario, row `(1, 300)` has a
single non-empty member and is never emitted or re-tagged. -/
theorem C7_row_minimality_witness :
    (∀ tr ∈ reconstruct_tables [unA, unB, unC], tr.key ≠ (1, 300)) ∧
    (∀ c ∈ rowBucket [unA, unB, unC] (1, 300),
      c.id ∉ tdIds (reconstruct_tables [unA, unB, unC])) :=
  C7_row_minimality [unA, unB, unC] (by decide) (1, 300) (by decide)

/-- Counterexample for C7 as stated: `unC` sits alone in row
`(1, 300)` (one non-empty member), yet its markup does not stay
untouched — its class attribute is cleared and it is moved into the
merged cell of row `(1, 100)`. -/
theorem C7_counterexample :
    ((rowBucket [unA, unB, unC] (1, 300)).filter (fun c => !(c.text == ""))).length = 1 ∧
    unC ∈ rowBucket [unA, unB, unC] (1, 300) ∧
    unC.id ∈ clearedIds (reconstruct_tables [unA, unB, unC]) := by
  exact ⟨by decide, by decide, by decide⟩

/-- C8 (amended): the bare 2×2 grid (no clip boxes) produces no table
row at all, because the absent-clip-box grouping removes every
unclipped line but the first from the row buckets; when the grid's
columns are wrapped in two clip boxes, the code produces exactly one
row container (the first column's clip box) wrapping exactly two
cells, and the single `<tr>` is wrapped into exactly one table. -/
theorem C8_grid_scenario :
    reconstruct_tables [colA, colB, colC, colD] =
      [⟨(1, 100), 60, [⟨colA, [colC]⟩, ⟨colB, [colD]⟩]⟩] ∧
    ((reconstruct_tables [colA, colB, colC, colD]).map (fun tr => tr.cells.length)) = [2] ∧
    wrapSet (fun s => s == "tr") ["tr"] = [["tr"]] ∧
    reconstruct_tables [gridA, gridB, gridC, gridD] = [] := by
  exact ⟨by decide, by decide, by decide, by decide⟩

/-- Counterexample for C8 as stated: on the clip-box-free 2×2 grid the
code emits no row container whatsoever (so no table with one row and
two cells exists): after the merge pass the buckets are `[gridA]` and
`[]`. -/
theorem C8_counterexample :
    reconstruct_tables [gridA, gridB, gridC, gridD] = [] ∧
    tableBuckets [gridA, gridB, gridC, gridD] =
      [((1, 100), [gridA]), ((1, 300), [])] := by
  exact ⟨by decide, by decide⟩

end Transcript
